import Mathlib

/-!
# Backup assembly (`pkg/backup/backup.go`)

A shallow embedding of `Run` and `getApps`.

* A Go `map[string]V` is a finite partial function on strings, written
  `GoMap V`; indexing a missing key of a `map[string]string` gives `""`.
* A Go `error` is represented by its message (`err.Error()`), the only thing
  the code reads from it (through the `%s` verb) besides returning it.
* The controller client is given by its four lookup functions.
* The tar writer is given by its operations over a state of arbitrary type;
  every call `Run` makes on it is recorded, with its outcome, in a call log.
  The log is tied to the writer: `replay` applies the logged operations to a
  writer state, `Faithful` says the logged errors are the ones the writer
  returns, and the claims state that the final state of the writer is the
  replay of the log from the new writer.
* `range` over a Go map visits the entries in an unspecified order: `getApps`
  and `Run` take the order of the visit as the argument `order`, a
  permutation of the table `apps`.
-/

namespace Backup

/-- A Go `map[string]V`. -/
abbrev GoMap (α : Type) := String → Option α

/-- The empty map, `make(map[string]V)` or `map[string]V{}`. -/
def GoMap.empty {α : Type} : GoMap α := fun _ => none

/-- The assignment `m[k] = v`. -/
def GoMap.set {α : Type} (m : GoMap α) (k : String) (v : α) : GoMap α :=
  fun k' => if k' = k then some v else m k'

/-- The expression `m[k]` on a `map[string]string`: the zero value `""` when
the key is missing. -/
def GoMap.index (m : GoMap String) (k : String) : String := (m k).getD ""

/-- The type `ct.App`, as far as the code reads it. -/
structure App where
  ID : String
  Name : String

/-- The type `ct.Release`, as far as the code reads it. -/
structure Release where
  ID : String
  ArtifactID : String
  Env : GoMap String

/-- The type `ct.Artifact`. -/
structure Artifact where
  ID : String
  URI : String

/-- The type `ct.Formation`, as far as the code reads it. -/
structure Formation where
  AppID : String
  ReleaseID : String
  Processes : GoMap Int

/-- The type `ct.ExpandedFormation`, with the four fields `getApps` fills. -/
structure ExpandedFormation where
  App : Backup.App
  Release : Backup.Release
  Artifact : Backup.Artifact
  Processes : GoMap Int

/-- The type `ct.NewJob`, with the five fields `Run` fills. -/
structure NewJob where
  ReleaseID : String
  Entrypoint : List String
  Cmd : List String
  Env : GoMap String
  DisableLog : Bool

/-- The manifest, `map[string]*ct.ExpandedFormation`. -/
abbrev Manifest := GoMap ExpandedFormation

/-- The lookups of `controller.Client` that `getApps` calls; an error is its
message. -/
structure Client where
  GetApp : String → Except String App
  GetAppRelease : String → Except String Release
  GetFormation : String → String → Except String Formation
  GetArtifact : String → Except String Artifact

/-- The table `apps` of `getApps`: app name and whether the backup requires
it, in the order of the map literal. -/
def apps : List (String × Bool) :=
  [("postgres", true), ("mariadb", false), ("discoverd", true), ("flannel", true),
   ("controller", true)]

/-- The loop `for name, required := range apps` of `getApps`, visiting the
entries in the order given, with `data` the map built so far. -/
def getAppsLoop (client : Client) : List (String × Bool) → Manifest → Except String Manifest
  | [], data => .ok data
  | (name, required) :: rest, data =>
    match client.GetApp name with
    | .error err =>
      if required then
        .error ("error getting " ++ name ++ " app details: " ++ err)
      else
        getAppsLoop client rest data
    | .ok app =>
      match client.GetAppRelease app.ID with
      | .error err => .error ("error getting " ++ name ++ " app release: " ++ err)
      | .ok release =>
        match client.GetFormation app.ID release.ID with
        | .error err => .error ("error getting " ++ name ++ " app formation: " ++ err)
        | .ok formation =>
          match client.GetArtifact release.ArtifactID with
          | .error err => .error ("error getting " ++ name ++ " app artifact: " ++ err)
          | .ok artifact =>
            getAppsLoop client rest
              (data.set name
                { App := app, Release := release, Artifact := artifact,
                  Processes := formation.Processes })

/-- The function `getApps`; `order` is the order in which `range` visits the
table. -/
def getApps (client : Client) (order : List (String × Bool)) : Except String Manifest :=
  getAppsLoop client order GoMap.empty

/-- The tar writer of the package (`NewTarWriter` and the methods `Run`
calls), over a writer state `σ`. The output stream is part of the state;
`WriteCommandOutput` is handed the client it runs the job with. -/
structure TarWriter (σ : Type) where
  NewTarWriter : String → σ
  WriteJSON : σ → String → Manifest → σ × Option String
  WriteCommandOutput : σ → Client → String → String → NewJob → σ × Option String
  Close : σ → σ × Option String

/-- A call made on the tar writer, with the error it returned. -/
inductive Call where
  | writeJSON (name : String) (data : Manifest) (err : Option String)
  | writeCommandOutput (name app : String) (job : NewJob) (err : Option String)
  | close

/-- How `Run` ends: it returns an error value (`none` is `nil`), or it
panics on a nil pointer dereference. -/
inductive Outcome where
  | returned (err : Option String)
  | panicked
  deriving DecidableEq

/-- The job `pgJob` of `Run`. -/
def pgJob (pgRelease : Release) : NewJob :=
  { ReleaseID := pgRelease.ID
    Entrypoint := ["sh"]
    Cmd := ["-c", "pg_dumpall --clean --if-exists | gzip -9"]
    Env := ((GoMap.empty.set "PGHOST" (pgRelease.Env.index "PGHOST")).set "PGUSER"
      (pgRelease.Env.index "PGUSER")).set "PGPASSWORD" (pgRelease.Env.index "PGPASSWORD")
    DisableLog := true }

/-- The job `mysqlJob` of `Run`. -/
def mysqlJob (mysqlRelease : Release) : NewJob :=
  { ReleaseID := mysqlRelease.ID
    Entrypoint := ["sh"]
    Cmd := ["-c", "/usr/bin/mysqldump -h " ++ mysqlRelease.Env.index "MYSQL_HOST" ++ " -u " ++
      mysqlRelease.Env.index "MYSQL_USER" ++ " --all-databases | gzip -9"]
    Env := GoMap.empty.set "MYSQL_PWD" (mysqlRelease.Env.index "MYSQL_PWD")
    DisableLog := true }

/-- The result of a run: the calls made on the tar writer in order, the
writer's final state, and how the run ended. -/
structure RunResult (σ : Type) where
  calls : List Call
  final : σ
  outcome : Outcome

/-- The body of `Run` after the writer is created and before the deferred
`tw.Close()` runs. -/
def runBody {σ : Type} (client : Client) (w : TarWriter σ) (order : List (String × Bool))
    (tw : σ) : RunResult σ :=
  match getApps client order with
  | .error err => ⟨[], tw, .returned (some err)⟩
  | .ok data =>
    let r1 := w.WriteJSON tw "flynn.json" data
    let log1 := [Call.writeJSON "flynn.json" data r1.2]
    match r1.2 with
    | some err => ⟨log1, r1.1, .returned (some err)⟩
    | none =>
      match data "postgres" with
      | none => ⟨log1, r1.1, .panicked⟩
      | some pg =>
        let job := pgJob pg.Release
        let r2 := w.WriteCommandOutput r1.1 client "postgres.sql.gz" "postgres" job
        let log2 := log1 ++ [Call.writeCommandOutput "postgres.sql.gz" "postgres" job r2.2]
        match r2.2 with
        | some err => ⟨log2, r2.1, .returned (some ("error dumping database: " ++ err))⟩
        | none =>
          match data "mariadb" with
          | some mariadb =>
            let job3 := mysqlJob mariadb.Release
            let r3 := w.WriteCommandOutput r2.1 client "mysql.sql.gz" "mariadb" job3
            let log3 := log2 ++ [Call.writeCommandOutput "mysql.sql.gz" "mariadb" job3 r3.2]
            match r3.2 with
            | some err => ⟨log3, r3.1, .returned (some ("error dumping database: " ++ err))⟩
            | none => ⟨log3, r3.1, .returned none⟩
          | none => ⟨log2, r2.1, .returned none⟩

/-- The function `Run`. `now` is `time.Now().UTC().Format("2006-01-02_150405")`;
the deferred `tw.Close()` runs last on every path, a panic included, and its
result is dropped. -/
def Run {σ : Type} (client : Client) (w : TarWriter σ) (now : String)
    (order : List (String × Bool)) : RunResult σ :=
  let tw := w.NewTarWriter ("flynn-backup-" ++ now)
  let r := runBody client w order tw
  ⟨r.calls ++ [Call.close], (w.Close r.final).1, r.outcome⟩

/-! ## Specification vocabulary -/

/-- One visit of the loop of `getApps`, seen from outside: the failure that
ends the loop, or the entry stored for `name` (`none` when the app is
skipped). -/
def visit (client : Client) (name : String) (required : Bool) :
    Except String (Option ExpandedFormation) :=
  match client.GetApp name with
  | .error err =>
    if required then .error ("error getting " ++ name ++ " app details: " ++ err) else .ok none
  | .ok app =>
    match client.GetAppRelease app.ID with
    | .error err => .error ("error getting " ++ name ++ " app release: " ++ err)
    | .ok release =>
      match client.GetFormation app.ID release.ID with
      | .error err => .error ("error getting " ++ name ++ " app formation: " ++ err)
      | .ok formation =>
        match client.GetArtifact release.ArtifactID with
        | .error err => .error ("error getting " ++ name ++ " app artifact: " ++ err)
        | .ok artifact =>
          .ok (some { App := app, Release := release, Artifact := artifact,
                      Processes := formation.Processes })

/-- All four lookups for `name` succeed and `ef` is what they return. -/
def Resolved (client : Client) (name : String) (ef : ExpandedFormation) : Prop :=
  ∃ app release formation artifact,
    client.GetApp name = .ok app ∧ client.GetAppRelease app.ID = .ok release ∧
    client.GetFormation app.ID release.ID = .ok formation ∧
    client.GetArtifact release.ArtifactID = .ok artifact ∧
    ef = { App := app, Release := release, Artifact := artifact,
           Processes := formation.Processes }

/-- Every lookup for each of the four required apps succeeds. -/
def RequiredResolve (client : Client) : Prop :=
  ∀ name, (name, true) ∈ apps → ∃ ef, Resolved client name ef

/-- The map that `getApps` builds from `data` when it visits the names `names`
without failing: each name whose lookups all succeed is set, the rest is
left as it was. -/
def merged (client : Client) (names : List String) (data : Manifest) : Manifest :=
  fun k =>
    if k ∈ names then
      match visit client k false with
      | .ok (some ef) => some ef
      | _ => data k
    else data k

/-- The archive entry name a call writes under, if it is an entry write. -/
def Call.entryName : Call → Option String
  | .writeJSON name _ _ => some name
  | .writeCommandOutput name _ _ _ => some name
  | .close => none

/-- The error a call returned; the result of `Close` is dropped by `Run`. -/
def Call.err : Call → Option String
  | .writeJSON _ _ err => err
  | .writeCommandOutput _ _ _ err => err
  | .close => none

/-- Whether a call is the writer's `Close`. -/
def Call.isClose : Call → Bool
  | .close => true
  | _ => false

/-- The names of the entry writes issued, in order. -/
def entryWrites (calls : List Call) : List String := calls.filterMap Call.entryName

/-- The message `msg` contains the text `sub`. -/
def Contains (msg sub : String) : Prop := sub.toList <:+: msg.toList

instance (msg sub : String) : Decidable (Contains msg sub) := by
  unfold Contains; infer_instance

/-- The writer operation a logged call stands for, applied to the writer in
state `s`: the state it leaves and the error it returns. The error recorded in
the call plays no part. -/
def TarWriter.issue {σ : Type} (w : TarWriter σ) (client : Client) (s : σ) : Call → σ × Option String
  | .writeJSON name data _ => w.WriteJSON s name data
  | .writeCommandOutput name app job _ => w.WriteCommandOutput s client name app job
  | .close => w.Close s

/-- The state the writer reaches from `s` when the operations of `calls` are
applied to it in order. -/
def TarWriter.replay {σ : Type} (w : TarWriter σ) (client : Client) : σ → List Call → σ
  | s, [] => s
  | s, call :: rest => TarWriter.replay w client (w.issue client s call).1 rest

/-- The errors recorded in `calls` are the ones the writer returns when the
operations are applied to it in order from state `s` (the result of `Close`
is not recorded). -/
def TarWriter.Faithful {σ : Type} (w : TarWriter σ) (client : Client) : σ → List Call → Prop
  | _, [] => True
  | s, call :: rest =>
    (call.isClose = false → (w.issue client s call).2 = call.err) ∧
      TarWriter.Faithful w client (w.issue client s call).1 rest

/-! ## Sample clients and writers -/

/-- A client that answers every lookup. -/
def okClient : Client where
  GetApp := fun name => .ok { ID := name ++ "-id", Name := name }
  GetAppRelease := fun appID =>
    .ok { ID := appID ++ "-rel", ArtifactID := appID ++ "-art",
          Env := (GoMap.empty.set "PGHOST" "pg.local").set "MYSQL_HOST" "my.local" }
  GetFormation := fun appID releaseID =>
    .ok { AppID := appID, ReleaseID := releaseID, Processes := GoMap.empty.set "web" 1 }
  GetArtifact := fun artifactID => .ok { ID := artifactID, URI := "https://example.com" }

/-- The manifest entry `okClient` resolves for `name`. -/
def okEntry (name : String) : ExpandedFormation where
  App := { ID := name ++ "-id", Name := name }
  Release :=
    { ID := name ++ "-id" ++ "-rel", ArtifactID := name ++ "-id" ++ "-art",
      Env := (GoMap.empty.set "PGHOST" "pg.local").set "MYSQL_HOST" "my.local" }
  Artifact := { ID := name ++ "-id" ++ "-art", URI := "https://example.com" }
  Processes := GoMap.empty.set "web" 1

/-- As `okClient`, but `GetApp` fails for the names in `missing`. -/
def missingClient (missing : List String) : Client :=
  { okClient with
    GetApp := fun name =>
      if name ∈ missing then .error "not found" else okClient.GetApp name }

/-- As `okClient`, but `GetAppRelease` fails for the app ID `badID`. -/
def noReleaseClient (badID : String) : Client :=
  { okClient with
    GetAppRelease := fun appID =>
      if appID = badID then .error "no release" else okClient.GetAppRelease appID }

/-- A writer whose state is the list of entry names written so far, and whose
writes fail with "write failed" for the entry names in `failing`. -/
def listWriter (failing : List String) : TarWriter (List String) where
  NewTarWriter := fun _ => []
  WriteJSON := fun s name _ =>
    if name ∈ failing then (s, some "write failed") else (s ++ [name], none)
  WriteCommandOutput := fun s _ name _ _ =>
    if name ∈ failing then (s, some "exit status 1") else (s ++ [name], none)
  Close := fun s => (s, none)

/-- A writer whose state is the list of operations applied to it, with the
arguments it was handed and the error it returned; its writes fail for the
entry names in `failing`. -/
def recorder (failing : List String) : TarWriter (List Call) where
  NewTarWriter := fun _ => []
  WriteJSON := fun s name data =>
    if name ∈ failing then (s ++ [Call.writeJSON name data (some "write failed")], some "write failed")
    else (s ++ [Call.writeJSON name data none], none)
  WriteCommandOutput := fun s _ name app job =>
    if name ∈ failing then
      (s ++ [Call.writeCommandOutput name app job (some "exit status 1")], some "exit status 1")
    else (s ++ [Call.writeCommandOutput name app job none], none)
  Close := fun s => (s ++ [Call.close], none)

/-! ## The loop of `getApps` -/

theorem getAppsLoop_cons (client : Client) (name : String) (required : Bool)
    (rest : List (String × Bool)) (data : Manifest) :
    getAppsLoop client ((name, required) :: rest) data =
      match visit client name required with
      | .error err => .error err
      | .ok none => getAppsLoop client rest data
      | .ok (some ef) => getAppsLoop client rest (data.set name ef) := by
  simp only [getAppsLoop, visit]
  cases client.GetApp name with
  | error err => cases required <;> simp
  | ok app =>
    simp only
    cases client.GetAppRelease app.ID with
    | error err => simp
    | ok release =>
      simp only
      cases client.GetFormation app.ID release.ID with
      | error err => simp
      | ok formation =>
        simp only
        cases client.GetArtifact release.ArtifactID <;> simp

/-- The entry a visit stores does not depend on the `required` flag. -/
theorem visit_some_flag {client : Client} {name : String} {required : Bool}
    {ef : ExpandedFormation} (h : visit client name required = .ok (some ef))
    (flag : Bool) : visit client name flag = .ok (some ef) := by
  revert h
  simp only [visit]
  cases client.GetApp name with
  | error err => cases required <;> simp
  | ok app =>
    simp only
    cases client.GetAppRelease app.ID with
    | error err => simp
    | ok release =>
      simp only
      cases client.GetFormation app.ID release.ID with
      | error err => simp
      | ok formation =>
        simp only
        cases client.GetArtifact release.ArtifactID <;> simp

/-- A skipped visit is a failed `GetApp` on an optional app. -/
theorem visit_none {client : Client} {name : String} {required : Bool}
    (h : visit client name required = .ok none) :
    required = false ∧ ∃ err, client.GetApp name = .error err := by
  revert h
  simp only [visit]
  cases client.GetApp name with
  | error err => cases required <;> simp
  | ok app =>
    simp only
    cases client.GetAppRelease app.ID with
    | error err => simp
    | ok release =>
      simp only
      cases client.GetFormation app.ID release.ID with
      | error err => simp
      | ok formation =>
        simp only
        cases client.GetArtifact release.ArtifactID <;> simp

/-- A visit stores an entry exactly when the four lookups succeed. -/
theorem visit_some_iff {client : Client} {name : String} {required : Bool}
    {ef : ExpandedFormation} :
    visit client name required = .ok (some ef) ↔ Resolved client name ef := by
  simp only [visit, Resolved]
  cases hA : client.GetApp name with
  | error err => cases required <;> simp
  | ok app =>
    simp only
    cases hR : client.GetAppRelease app.ID with
    | error err =>
      simp only [Except.ok.injEq, false_iff, not_exists, not_and, reduceCtorEq]
      intro a r f t ha hr
      cases ha
      rw [hR] at hr
      cases hr
    | ok release =>
      simp only
      cases hF : client.GetFormation app.ID release.ID with
      | error err =>
        simp only [Except.ok.injEq, false_iff, not_exists, not_and, reduceCtorEq]
        intro a r f t ha hr hf
        cases ha
        rw [hR] at hr
        cases hr
        rw [hF] at hf
        cases hf
      | ok formation =>
        simp only
        cases hT : client.GetArtifact release.ArtifactID with
        | error err =>
          simp only [Except.ok.injEq, false_iff, not_exists, not_and, reduceCtorEq]
          intro a r f t ha hr hf ht
          cases ha
          rw [hR] at hr
          cases hr
          rw [hT] at ht
          cases ht
        | ok artifact =>
          simp only [Except.ok.injEq, Option.some.injEq]
          constructor
          · intro h
            exact ⟨app, release, formation, artifact, rfl, hR, hF, hT, h.symm⟩
          · rintro ⟨a, r, f, t, ha, hr, hf, ht, he⟩
            cases ha
            rw [hR] at hr
            cases hr
            rw [hF] at hf
            cases hf
            rw [hT] at ht
            cases ht
            exact he.symm

/-- The failing lookup behind an error of a visit. -/
theorem visit_error {client : Client} {name : String} {required : Bool} {e : String}
    (h : visit client name required = .error e) :
    (required = true ∧ ∃ cause, client.GetApp name = .error cause ∧
        e = "error getting " ++ name ++ " app details: " ++ cause) ∨
    (∃ app cause, client.GetApp name = .ok app ∧ client.GetAppRelease app.ID = .error cause ∧
        e = "error getting " ++ name ++ " app release: " ++ cause) ∨
    (∃ app release cause, client.GetApp name = .ok app ∧
        client.GetAppRelease app.ID = .ok release ∧
        client.GetFormation app.ID release.ID = .error cause ∧
        e = "error getting " ++ name ++ " app formation: " ++ cause) ∨
    (∃ app release formation cause, client.GetApp name = .ok app ∧
        client.GetAppRelease app.ID = .ok release ∧
        client.GetFormation app.ID release.ID = .ok formation ∧
        client.GetArtifact release.ArtifactID = .error cause ∧
        e = "error getting " ++ name ++ " app artifact: " ++ cause) := by
  revert h
  simp only [visit]
  cases hA : client.GetApp name with
  | error err =>
    cases required
    · simp
    · intro h
      left
      refine ⟨rfl, err, rfl, ?_⟩
      simpa using h.symm
  | ok app =>
    simp only
    cases hR : client.GetAppRelease app.ID with
    | error err =>
      intro h
      right; left
      refine ⟨app, err, rfl, hR, ?_⟩
      simpa using h.symm
    | ok release =>
      simp only
      cases hF : client.GetFormation app.ID release.ID with
      | error err =>
        intro h
        right; right; left
        refine ⟨app, release, err, rfl, hR, hF, ?_⟩
        simpa using h.symm
      | ok formation =>
        simp only
        cases hT : client.GetArtifact release.ArtifactID with
        | error err =>
          intro h
          right; right; right
          refine ⟨app, release, formation, err, rfl, hR, hF, hT, ?_⟩
          simpa using h.symm
        | ok artifact => simp

theorem getAppsLoop_ok {client : Client} {order : List (String × Bool)} {data d : Manifest}
    (h : getAppsLoop client order data = .ok d) :
    (∀ p ∈ order, ∃ o, visit client p.1 p.2 = .ok o) ∧
      d = merged client (order.map Prod.fst) data := by
  induction order generalizing data with
  | nil =>
    simp only [getAppsLoop, Except.ok.injEq] at h
    subst h
    refine ⟨by simp, ?_⟩
    funext k
    simp [merged]
  | cons p rest ih =>
    obtain ⟨name, required⟩ := p
    rw [getAppsLoop_cons] at h
    cases hv : visit client name required with
    | error err => rw [hv] at h; cases h
    | ok o =>
      rw [hv] at h
      cases o with
      | none =>
        simp only at h
        obtain ⟨h1, h2⟩ := ih h
        refine ⟨?_, ?_⟩
        · intro p hp
          rcases List.mem_cons.1 hp with rfl | hp
          · exact ⟨none, hv⟩
          · exact h1 p hp
        · subst h2
          funext k
          obtain ⟨hreq, _⟩ := visit_none hv
          subst hreq
          by_cases hk : k = name
          · subst hk
            simp [merged, hv]
          · simp [merged, hk]
      | some ef =>
        simp only at h
        obtain ⟨h1, h2⟩ := ih h
        refine ⟨?_, ?_⟩
        · intro p hp
          rcases List.mem_cons.1 hp with rfl | hp
          · exact ⟨some ef, hv⟩
          · exact h1 p hp
        · subst h2
          funext k
          have hv' := visit_some_flag hv false
          by_cases hk : k = name
          · subst hk
            simp [merged, hv', GoMap.set]
          · simp [merged, hk, GoMap.set]

theorem getAppsLoop_error {client : Client} {order : List (String × Bool)} {data : Manifest}
    {e : String} (h : getAppsLoop client order data = .error e) :
    ∃ p ∈ order, visit client p.1 p.2 = .error e := by
  induction order generalizing data with
  | nil => simp [getAppsLoop] at h
  | cons p rest ih =>
    obtain ⟨name, required⟩ := p
    rw [getAppsLoop_cons] at h
    cases hv : visit client name required with
    | error err =>
      rw [hv] at h
      simp only [Except.error.injEq] at h
      subst h
      exact ⟨(name, required), List.mem_cons_self _ _, hv⟩
    | ok o =>
      rw [hv] at h
      cases o with
      | none =>
        obtain ⟨p, hp, hpe⟩ := ih h
        exact ⟨p, List.mem_cons_of_mem _ hp, hpe⟩
      | some ef =>
        obtain ⟨p, hp, hpe⟩ := ih h
        exact ⟨p, List.mem_cons_of_mem _ hp, hpe⟩

theorem merged_congr (client : Client) {n1 n2 : List String} (h : ∀ k, k ∈ n1 ↔ k ∈ n2)
    (data : Manifest) : merged client n1 data = merged client n2 data := by
  funext k
  simp [merged, h k]

/-! ## The paths of `Run` -/

/-- The paths through the body of `Run`: what `getApps` returned, the calls
made and the outcome on each. -/
theorem runBody_paths {σ : Type} (client : Client) (w : TarWriter σ)
    (order : List (String × Bool)) (tw : σ) :
    (∃ e, getApps client order = .error e ∧ (runBody client w order tw).calls = [] ∧
        (runBody client w order tw).outcome = .returned (some e)) ∨
    (∃ data e, getApps client order = .ok data ∧
        (runBody client w order tw).calls = [Call.writeJSON "flynn.json" data (some e)] ∧
        (runBody client w order tw).outcome = .returned (some e)) ∨
    (∃ data, getApps client order = .ok data ∧ data "postgres" = none ∧
        (runBody client w order tw).calls = [Call.writeJSON "flynn.json" data none] ∧
        (runBody client w order tw).outcome = .panicked) ∨
    (∃ data pg e, getApps client order = .ok data ∧ data "postgres" = some pg ∧
        (runBody client w order tw).calls =
          [Call.writeJSON "flynn.json" data none,
           Call.writeCommandOutput "postgres.sql.gz" "postgres" (pgJob pg.Release) (some e)] ∧
        (runBody client w order tw).outcome =
          .returned (some ("error dumping database: " ++ e))) ∨
    (∃ data pg, getApps client order = .ok data ∧ data "postgres" = some pg ∧
        data "mariadb" = none ∧
        (runBody client w order tw).calls =
          [Call.writeJSON "flynn.json" data none,
           Call.writeCommandOutput "postgres.sql.gz" "postgres" (pgJob pg.Release) none] ∧
        (runBody client w order tw).outcome = .returned none) ∨
    (∃ data pg my e, getApps client order = .ok data ∧ data "postgres" = some pg ∧
        data "mariadb" = some my ∧
        (runBody client w order tw).calls =
          [Call.writeJSON "flynn.json" data none,
           Call.writeCommandOutput "postgres.sql.gz" "postgres" (pgJob pg.Release) none,
           Call.writeCommandOutput "mysql.sql.gz" "mariadb" (mysqlJob my.Release) (some e)] ∧
        (runBody client w order tw).outcome =
          .returned (some ("error dumping database: " ++ e))) ∨
    (∃ data pg my, getApps client order = .ok data ∧ data "postgres" = some pg ∧
        data "mariadb" = some my ∧
        (runBody client w order tw).calls =
          [Call.writeJSON "flynn.json" data none,
           Call.writeCommandOutput "postgres.sql.gz" "postgres" (pgJob pg.Release) none,
           Call.writeCommandOutput "mysql.sql.gz" "mariadb" (mysqlJob my.Release) none] ∧
        (runBody client w order tw).outcome = .returned none) := by
  unfold runBody
  cases hg : getApps client order with
  | error e => exact Or.inl ⟨e, rfl, rfl, rfl⟩
  | ok data =>
    right
    simp only
    cases h1 : (w.WriteJSON tw "flynn.json" data).2 with
    | some e => exact Or.inl ⟨data, e, rfl, rfl, rfl⟩
    | none =>
      right
      simp only
      cases hp : data "postgres" with
      | none => exact Or.inl ⟨data, rfl, hp, rfl, rfl⟩
      | some pg =>
        right
        simp only
        cases h2 : (w.WriteCommandOutput (w.WriteJSON tw "flynn.json" data).1 client
            "postgres.sql.gz" "postgres" (pgJob pg.Release)).2 with
        | some e => exact Or.inl ⟨data, pg, e, rfl, hp, rfl, rfl⟩
        | none =>
          right
          simp only
          cases hm : data "mariadb" with
          | none => exact Or.inl ⟨data, pg, rfl, hp, hm, rfl, rfl⟩
          | some my =>
            right
            simp only
            cases h3 : (w.WriteCommandOutput (w.WriteCommandOutput
                (w.WriteJSON tw "flynn.json" data).1 client "postgres.sql.gz" "postgres"
                (pgJob pg.Release)).1 client "mysql.sql.gz" "mariadb" (mysqlJob my.Release)).2 with
            | some e => exact Or.inl ⟨data, pg, my, e, rfl, hp, hm, rfl, rfl⟩
            | none => exact Or.inr ⟨data, pg, my, rfl, hp, hm, rfl, rfl⟩

theorem Run_calls {σ : Type} (client : Client) (w : TarWriter σ) (now : String)
    (order : List (String × Bool)) :
    (Run client w now order).calls =
      (runBody client w order (w.NewTarWriter ("flynn-backup-" ++ now))).calls ++ [Call.close] :=
  rfl

theorem Run_outcome {σ : Type} (client : Client) (w : TarWriter σ) (now : String)
    (order : List (String × Bool)) :
    (Run client w now order).outcome =
      (runBody client w order (w.NewTarWriter ("flynn-backup-" ++ now))).outcome :=
  rfl

/-- A successful `getApps` over the whole table stores every required app. -/
theorem getApps_required {client : Client} {order : List (String × Bool)} {data : Manifest}
    (horder : order.Perm apps) (h : getApps client order = .ok data) (name : String)
    (hname : (name, true) ∈ apps) : ∃ ef, data name = some ef ∧ Resolved client name ef := by
  obtain ⟨hall, hd⟩ := getAppsLoop_ok h
  obtain ⟨o, ho⟩ := hall (name, true) (horder.mem_iff.2 hname)
  cases o with
  | none => exact absurd (visit_none ho).1 (by simp)
  | some ef =>
    refine ⟨ef, ?_, visit_some_iff.1 ho⟩
    have hmem : name ∈ order.map Prod.fst := List.mem_map.2 ⟨(name, true), horder.mem_iff.2 hname, rfl⟩
    rw [hd]
    simp [merged, hmem, visit_some_flag ho false]

/-- What a successful `getApps` stores under a key. -/
theorem getApps_entry {client : Client} {order : List (String × Bool)} {data : Manifest}
    (h : getApps client order = .ok data) {name : String} {ef : ExpandedFormation}
    (hname : data name = some ef) :
    name ∈ order.map Prod.fst ∧ Resolved client name ef := by
  obtain ⟨_, hd⟩ := getAppsLoop_ok h
  rw [hd] at hname
  simp only [merged] at hname
  by_cases hmem : name ∈ order.map Prod.fst
  · rw [if_pos hmem] at hname
    refine ⟨hmem, ?_⟩
    cases hv : visit client name false with
    | error e => rw [hv] at hname; simp [GoMap.empty] at hname
    | ok o =>
      rw [hv] at hname
      cases o with
      | none => simp [GoMap.empty] at hname
      | some ef' =>
        simp only [Option.some.injEq] at hname
        subst hname
        exact visit_some_iff.1 hv
  · rw [if_neg hmem] at hname
    simp [GoMap.empty] at hname

/-- The loop succeeds when every visit does. -/
theorem getAppsLoop_total {client : Client} {order : List (String × Bool)}
    (hall : ∀ p ∈ order, ∃ o, visit client p.1 p.2 = .ok o) (data : Manifest) :
    ∃ d, getAppsLoop client order data = .ok d := by
  cases h : getAppsLoop client order data with
  | ok d => exact ⟨d, rfl⟩
  | error e =>
    obtain ⟨p, hp, hpe⟩ := getAppsLoop_error h
    obtain ⟨o, ho⟩ := hall p hp
    rw [ho] at hpe
    cases hpe

/-- A message built around `name` contains it. -/
theorem contains_mid (a name b : String) : Contains (a ++ name ++ b) name := by
  refine ⟨a.toList, b.toList, ?_⟩
  simp [String.toList]

/-! ## The call log and the writer -/

theorem replay_append {σ : Type} (w : TarWriter σ) (client : Client) (s : σ)
    (a b : List Call) :
    w.replay client s (a ++ b) = w.replay client (w.replay client s a) b := by
  induction a generalizing s with
  | nil => rfl
  | cons call rest ih =>
    show w.replay client (w.issue client s call).1 (rest ++ b) = _
    rw [ih]
    rfl

theorem faithful_append {σ : Type} (w : TarWriter σ) (client : Client) (s : σ)
    (a b : List Call) :
    w.Faithful client s (a ++ b) ↔
      w.Faithful client s a ∧ w.Faithful client (w.replay client s a) b := by
  induction a generalizing s with
  | nil => simp [TarWriter.Faithful, TarWriter.replay]
  | cons call rest ih =>
    show (_ ∧ w.Faithful client (w.issue client s call).1 (rest ++ b)) ↔
      (_ ∧ w.Faithful client (w.issue client s call).1 rest) ∧
        w.Faithful client (w.replay client (w.issue client s call).1 rest) b
    rw [ih, and_assoc]

/-- The body of `Run` leaves the writer in the state reached by the logged
operations, and logs the errors the writer returned. -/
theorem runBody_log {σ : Type} (client : Client) (w : TarWriter σ)
    (order : List (String × Bool)) (tw : σ) :
    (runBody client w order tw).final = w.replay client tw (runBody client w order tw).calls ∧
      w.Faithful client tw (runBody client w order tw).calls := by
  unfold runBody
  cases hg : getApps client order with
  | error e => exact ⟨rfl, trivial⟩
  | ok data =>
    simp only
    cases h1 : (w.WriteJSON tw "flynn.json" data).2 with
    | some e => simp [TarWriter.replay, TarWriter.Faithful, TarWriter.issue, Call.err, h1]
    | none =>
      simp only
      cases hp : data "postgres" with
      | none => simp [TarWriter.replay, TarWriter.Faithful, TarWriter.issue, Call.err, h1]
      | some pg =>
        simp only
        cases h2 : (w.WriteCommandOutput (w.WriteJSON tw "flynn.json" data).1 client
            "postgres.sql.gz" "postgres" (pgJob pg.Release)).2 with
        | some e => simp [TarWriter.replay, TarWriter.Faithful, TarWriter.issue, Call.err, h1, h2]
        | none =>
          simp only
          cases hm : data "mariadb" with
          | none => simp [TarWriter.replay, TarWriter.Faithful, TarWriter.issue, Call.err, h1, h2]
          | some my =>
            simp only
            cases h3 : (w.WriteCommandOutput (w.WriteCommandOutput
                (w.WriteJSON tw "flynn.json" data).1 client "postgres.sql.gz" "postgres"
                (pgJob pg.Release)).1 client "mysql.sql.gz" "mariadb" (mysqlJob my.Release)).2 with
            | some e =>
              simp [TarWriter.replay, TarWriter.Faithful, TarWriter.issue, Call.err, h1, h2, h3]
            | none =>
              simp [TarWriter.replay, TarWriter.Faithful, TarWriter.issue, Call.err, h1, h2, h3]

theorem Run_final {σ : Type} (client : Client) (w : TarWriter σ) (now : String)
    (order : List (String × Bool)) :
    (Run client w now order).final =
      (w.Close (runBody client w order (w.NewTarWriter ("flynn-backup-" ++ now))).final).1 :=
  rfl

/-- The run leaves the writer in the state reached by applying the logged
operations to the new writer in order, and the log holds the errors the writer
returned. -/
theorem Run_log {σ : Type} (client : Client) (w : TarWriter σ) (now : String)
    (order : List (String × Bool)) :
    (Run client w now order).final =
        w.replay client (w.NewTarWriter ("flynn-backup-" ++ now))
          (Run client w now order).calls ∧
      w.Faithful client (w.NewTarWriter ("flynn-backup-" ++ now))
        (Run client w now order).calls := by
  obtain ⟨h1, h2⟩ := runBody_log client w order (w.NewTarWriter ("flynn-backup-" ++ now))
  refine ⟨?_, ?_⟩
  · rw [Run_final, Run_calls, replay_append, ← h1]
    rfl
  · rw [Run_calls, faithful_append]
    exact ⟨h2, by simp [TarWriter.Faithful, Call.isClose]⟩

/-- A logged call reached the writer with the arguments logged, in the state
left by the calls before it, and returned the error logged. -/
theorem log_mem_issued {σ : Type} {w : TarWriter σ} {client : Client} {s : σ}
    {calls : List Call} (hf : w.Faithful client s calls) {call : Call} (hmem : call ∈ calls) :
    ∃ pre post, calls = pre ++ call :: post ∧
      (call.isClose = false → (w.issue client (w.replay client s pre) call).2 = call.err) := by
  obtain ⟨pre, post, rfl⟩ := List.append_of_mem hmem
  refine ⟨pre, post, rfl, ?_⟩
  have h := ((faithful_append w client s pre (call :: post)).1 hf).2
  exact h.1

/-! ## Claims -/

/-- In the call log: when `GetApp` fails for a required app, `Run` returns a non-nil error
and the only call it makes on the tar writer is the deferred `Close`: no
`WriteJSON`, no `WriteCommandOutput`, hence no job. -/
theorem log_required_app_missing {σ : Type} (client : Client) (w : TarWriter σ) (now : String)
    (order : List (String × Bool)) (horder : order.Perm apps) (name cause : String)
    (hreq : (name, true) ∈ apps) (hfail : client.GetApp name = .error cause) :
    (∃ e, (Run client w now order).outcome = .returned (some e)) ∧
      (Run client w now order).calls = [Call.close] := by
  have herr : ∃ e, getApps client order = .error e := by
    cases h : getApps client order with
    | error e => exact ⟨e, rfl⟩
    | ok data =>
      obtain ⟨ef, _, app, _, _, _, happ, _⟩ := getApps_required horder h _ hreq
      rw [hfail] at happ
      cases happ
  obtain ⟨e, he⟩ := herr
  rw [Run_calls, Run_outcome]
  rcases runBody_paths client w order (w.NewTarWriter ("flynn-backup-" ++ now)) with
    ⟨e', _, hc, ho⟩ | ⟨d, _, hg, _⟩ | ⟨d, hg, _⟩ | ⟨d, _, _, hg, _⟩ | ⟨d, _, hg, _⟩ |
    ⟨d, _, _, _, hg, _⟩ | ⟨d, _, _, hg, _⟩
  · exact ⟨⟨e', ho⟩, by rw [hc]; rfl⟩
  all_goals (rw [he] at hg; cases hg)

/-- C1: when `GetApp` fails for a required app, `Run` returns a non-nil error
and the only call it makes on the tar writer is the deferred `Close`: no
`WriteJSON`, no `WriteCommandOutput`, hence no job. The writer is left in the
state `Close` gives the new writer, so no write reached it. -/
theorem Run_required_app_missing {σ : Type} (client : Client) (w : TarWriter σ) (now : String)
    (order : List (String × Bool)) (horder : order.Perm apps) (name cause : String)
    (hreq : (name, true) ∈ apps) (hfail : client.GetApp name = .error cause) :
    (∃ e, (Run client w now order).outcome = .returned (some e)) ∧
      (Run client w now order).calls = [Call.close] ∧
      (Run client w now order).final =
        (w.Close (w.NewTarWriter ("flynn-backup-" ++ now))).1 := by
  obtain ⟨h1, h2⟩ := log_required_app_missing client w now order horder name cause hreq hfail
  refine ⟨h1, h2, ?_⟩
  rw [(Run_log client w now order).1, h2]
  rfl

theorem Run_required_app_missing_witness :
    (apps.reverse.Perm apps ∧ ("flannel", true) ∈ apps ∧
      (missingClient ["flannel"]).GetApp "flannel" = .error "not found") ∧
    ((∃ e, (Run (missingClient ["flannel"]) (listWriter []) "2016-01-02_030405" apps.reverse).outcome = .returned (some e)) ∧
      (Run (missingClient ["flannel"]) (listWriter []) "2016-01-02_030405" apps.reverse).calls = [Call.close] ∧
      (Run (missingClient ["flannel"]) (listWriter []) "2016-01-02_030405" apps.reverse).final =
        ((listWriter []).Close ((listWriter []).NewTarWriter ("flynn-backup-" ++ "2016-01-02_030405"))).1) :=
  ⟨⟨List.reverse_perm _, by decide, rfl⟩,
    Run_required_app_missing (missingClient ["flannel"]) (listWriter []) "2016-01-02_030405"
      apps.reverse (List.reverse_perm _) "flannel" "not found" (by decide) rfl⟩

/-- A failed `GetApp` on mariadb with the required apps resolving makes
`getApps` succeed with no mariadb key. -/
theorem getApps_mariadb_missing {client : Client} {order : List (String × Bool)}
    (horder : order.Perm apps) (hreq : RequiredResolve client) {cause : String}
    (hmiss : client.GetApp "mariadb" = .error cause) :
    ∃ data, getApps client order = .ok data ∧ data "mariadb" = none := by
  have hall : ∀ p ∈ order, ∃ o, visit client p.1 p.2 = .ok o := by
    intro p hp
    have hp' := horder.mem_iff.1 hp
    obtain ⟨n, r⟩ := p
    cases r with
    | true =>
      obtain ⟨ef, hef⟩ := hreq n hp'
      exact ⟨some ef, visit_some_iff.2 hef⟩
    | false =>
      have hn : n = "mariadb" := by
        simp only [apps, List.mem_cons, Prod.mk.injEq, List.mem_singleton] at hp'
        simpa using hp'
      subst hn
      exact ⟨none, by simp [visit, hmiss]⟩
  obtain ⟨d, hd⟩ := getAppsLoop_total hall GoMap.empty
  refine ⟨d, hd, ?_⟩
  cases hm : d "mariadb" with
  | none => rfl
  | some ef =>
    obtain ⟨_, app, _, _, _, happ, _⟩ := getApps_entry hd hm
    rw [hmiss] at happ
    cases happ

/-- In the call log: when `GetApp("mariadb")` fails and every lookup for the four required
apps succeeds, `getApps` returns a manifest without "mariadb" and no error;
`Run` makes no `WriteCommandOutput` call other than the postgres one (so no
mariadb job, no "mysql.sql.gz" entry), does not panic, and returns nil exactly
when every write it issued succeeded. -/
theorem log_mariadb_missing {σ : Type} (client : Client) (w : TarWriter σ) (now : String)
    (order : List (String × Bool)) (horder : order.Perm apps) (hreq : RequiredResolve client)
    (cause : String) (hmiss : client.GetApp "mariadb" = .error cause) :
    (∃ data, getApps client order = .ok data ∧ data "mariadb" = none) ∧
    (∀ name app job err, Call.writeCommandOutput name app job err ∈
        (Run client w now order).calls → name = "postgres.sql.gz" ∧ app = "postgres") ∧
    "mysql.sql.gz" ∉ entryWrites (Run client w now order).calls ∧
    (Run client w now order).outcome ≠ .panicked ∧
    ((Run client w now order).outcome = .returned none ↔
      ∀ call ∈ (Run client w now order).calls, call.err = none) := by
  obtain ⟨data, hd, hm⟩ := getApps_mariadb_missing horder hreq hmiss
  obtain ⟨pg, hpg, _⟩ := getApps_required horder hd "postgres" (by decide)
  refine ⟨⟨data, hd, hm⟩, ?_⟩
  rw [Run_calls, Run_outcome]
  rcases runBody_paths client w order (w.NewTarWriter ("flynn-backup-" ++ now)) with
    ⟨e', hg, _⟩ | ⟨d, e, hg, hc, ho⟩ | ⟨d, hg, hp, _⟩ | ⟨d, p, e, hg, hp, hc, ho⟩ |
    ⟨d, p, hg, hp, hm', hc, ho⟩ | ⟨d, _, _, _, hg, _, hm', _⟩ | ⟨d, _, _, hg, _, hm', _⟩
  · rw [hd] at hg; cases hg
  · rw [hc, ho]
    simp [entryWrites, Call.entryName, Call.err]
  · rw [hd] at hg; cases hg; rw [hpg] at hp; cases hp
  · rw [hc, ho]
    refine ⟨fun _ _ _ _ h => ?_, ?_, ?_, ?_⟩
    · simp at h
      exact ⟨h.1, h.2.1⟩
    · simp [entryWrites, Call.entryName]
    · simp
    · simp [Call.err]
  · rw [hc, ho]
    refine ⟨fun _ _ _ _ h => ?_, ?_, ?_, ?_⟩
    · simp at h
      exact ⟨h.1, h.2.1⟩
    · simp [entryWrites, Call.entryName]
    · simp
    · simp [Call.err]
  · rw [hd] at hg; cases hg; rw [hm] at hm'; cases hm'
  · rw [hd] at hg; cases hg; rw [hm] at hm'; cases hm'

theorem missingClient_mariadb_resolves : RequiredResolve (missingClient ["mariadb"]) := by
  intro name h
  simp [apps] at h
  rcases h with rfl | rfl | rfl | rfl <;>
    exact ⟨_, _, _, _, _, rfl, rfl, rfl, rfl, rfl⟩

/-- C2: when `GetApp("mariadb")` fails and every lookup for the four required
apps succeeds, `getApps` returns a manifest without "mariadb" and no error;
`Run` makes no `WriteCommandOutput` call other than the postgres one (so no
mariadb job, no "mysql.sql.gz" entry), does not panic, and returns nil exactly
when every write it issued succeeded. The calls are the operations applied to
the writer, with the errors it returned. -/
theorem Run_mariadb_missing {σ : Type} (client : Client) (w : TarWriter σ) (now : String)
    (order : List (String × Bool)) (horder : order.Perm apps) (hreq : RequiredResolve client)
    (cause : String) (hmiss : client.GetApp "mariadb" = .error cause) :
    (∃ data, getApps client order = .ok data ∧ data "mariadb" = none) ∧
    (∀ name app job err, Call.writeCommandOutput name app job err ∈
        (Run client w now order).calls → name = "postgres.sql.gz" ∧ app = "postgres") ∧
    "mysql.sql.gz" ∉ entryWrites (Run client w now order).calls ∧
    (Run client w now order).outcome ≠ .panicked ∧
    ((Run client w now order).outcome = .returned none ↔
      ∀ call ∈ (Run client w now order).calls, call.err = none) ∧
    (Run client w now order).final =
      w.replay client (w.NewTarWriter ("flynn-backup-" ++ now))
        (Run client w now order).calls ∧
    w.Faithful client (w.NewTarWriter ("flynn-backup-" ++ now)) (Run client w now order).calls := by
  obtain ⟨h1, h2, h3, h4, h5⟩ := log_mariadb_missing client w now order horder hreq cause hmiss
  exact ⟨h1, h2, h3, h4, h5, Run_log client w now order⟩

theorem Run_mariadb_missing_witness :
    (apps.Perm apps ∧ RequiredResolve (missingClient ["mariadb"]) ∧
      (missingClient ["mariadb"]).GetApp "mariadb" = .error "not found") ∧
    ((∃ data, getApps (missingClient ["mariadb"]) apps = .ok data ∧ data "mariadb" = none) ∧
    (∀ name app job err, Call.writeCommandOutput name app job err ∈
        (Run (missingClient ["mariadb"]) (listWriter []) "2016-01-02_030405" apps).calls → name = "postgres.sql.gz" ∧ app = "postgres") ∧
    "mysql.sql.gz" ∉ entryWrites (Run (missingClient ["mariadb"]) (listWriter []) "2016-01-02_030405" apps).calls ∧
    (Run (missingClient ["mariadb"]) (listWriter []) "2016-01-02_030405" apps).outcome ≠ .panicked ∧
    ((Run (missingClient ["mariadb"]) (listWriter []) "2016-01-02_030405" apps).outcome = .returned none ↔
      ∀ call ∈ (Run (missingClient ["mariadb"]) (listWriter []) "2016-01-02_030405" apps).calls, call.err = none) ∧
    (Run (missingClient ["mariadb"]) (listWriter []) "2016-01-02_030405" apps).final =
      (listWriter []).replay (missingClient ["mariadb"]) ((listWriter []).NewTarWriter ("flynn-backup-" ++ "2016-01-02_030405"))
        (Run (missingClient ["mariadb"]) (listWriter []) "2016-01-02_030405" apps).calls ∧
    (listWriter []).Faithful (missingClient ["mariadb"]) ((listWriter []).NewTarWriter ("flynn-backup-" ++ "2016-01-02_030405")) (Run (missingClient ["mariadb"]) (listWriter []) "2016-01-02_030405" apps).calls) :=
  ⟨⟨List.Perm.refl _, missingClient_mariadb_resolves, rfl⟩,
    Run_mariadb_missing (missingClient ["mariadb"]) (listWriter []) "2016-01-02_030405" apps
      (List.Perm.refl _) missingClient_mariadb_resolves "not found" rfl⟩

/-- In the call log: a run that returns nil issued exactly the entry writes "flynn.json",
"postgres.sql.gz" when the manifest has no "mariadb" key, and "flynn.json",
"postgres.sql.gz", "mysql.sql.gz" when it has one; in every run the entry
writes issued are a prefix of the sequence for the manifest (of both
sequences when `getApps` fails, when nothing is written). -/
theorem log_entry_writes {σ : Type} (client : Client) (w : TarWriter σ) (now : String)
    (order : List (String × Bool)) :
    ((Run client w now order).outcome = .returned none →
      ∃ data, getApps client order = .ok data ∧
        entryWrites (Run client w now order).calls =
          if (data "mariadb").isSome then ["flynn.json", "postgres.sql.gz", "mysql.sql.gz"]
          else ["flynn.json", "postgres.sql.gz"]) ∧
    (∀ data, getApps client order = .ok data →
      entryWrites (Run client w now order).calls <+:
          if (data "mariadb").isSome then ["flynn.json", "postgres.sql.gz", "mysql.sql.gz"]
          else ["flynn.json", "postgres.sql.gz"]) ∧
    ((∃ e, getApps client order = .error e) → entryWrites (Run client w now order).calls = []) ∧
    entryWrites (Run client w now order).calls <+:
      ["flynn.json", "postgres.sql.gz", "mysql.sql.gz"] := by
  rw [Run_calls, Run_outcome]
  rcases runBody_paths client w order (w.NewTarWriter ("flynn-backup-" ++ now)) with
    ⟨e', hg, hc, ho⟩ | ⟨d, e, hg, hc, ho⟩ | ⟨d, hg, hp, hc, ho⟩ | ⟨d, p, e, hg, hp, hc, ho⟩ |
    ⟨d, p, hg, hp, hm, hc, ho⟩ | ⟨d, p, m, e, hg, hp, hm, hc, ho⟩ | ⟨d, p, m, hg, hp, hm, hc, ho⟩
  · rw [hc, ho, hg]
    refine ⟨by simp, by simp, fun _ => by simp [entryWrites, Call.entryName], ?_⟩
    simp [entryWrites, Call.entryName]
  · rw [hc, ho, hg]
    refine ⟨by simp, ?_, by simp, ?_⟩
    · intro data hdata
      cases hdata
      cases hm : d "mariadb" <;> simp [entryWrites, Call.entryName, List.prefix_cons_inj]
    · simp [entryWrites, Call.entryName, List.prefix_cons_inj]
  · rw [hc, ho, hg]
    refine ⟨by simp, ?_, by simp, ?_⟩
    · intro data hdata
      cases hdata
      cases hm : d "mariadb" <;> simp [entryWrites, Call.entryName, List.prefix_cons_inj]
    · simp [entryWrites, Call.entryName, List.prefix_cons_inj]
  · rw [hc, ho, hg]
    refine ⟨by simp, ?_, by simp, ?_⟩
    · intro data hdata
      cases hdata
      cases hm : d "mariadb" <;> simp [entryWrites, Call.entryName, List.prefix_cons_inj]
    · simp [entryWrites, Call.entryName, List.prefix_cons_inj]
  · rw [hc, ho, hg]
    refine ⟨fun _ => ⟨d, rfl, ?_⟩, ?_, by simp, ?_⟩
    · simp [entryWrites, Call.entryName, hm]
    · intro data hdata
      cases hdata
      simp [entryWrites, Call.entryName, hm]
    · simp [entryWrites, Call.entryName, List.prefix_cons_inj]
  · rw [hc, ho, hg]
    refine ⟨by simp, ?_, by simp, ?_⟩
    · intro data hdata
      cases hdata
      simp [entryWrites, Call.entryName, hm]
    · simp [entryWrites, Call.entryName]
  · rw [hc, ho, hg]
    refine ⟨fun _ => ⟨d, rfl, ?_⟩, ?_, by simp, ?_⟩
    · simp [entryWrites, Call.entryName, hm]
    · intro data hdata
      cases hdata
      simp [entryWrites, Call.entryName, hm]
    · simp [entryWrites, Call.entryName]

/-- In the call log: on every path of `Run`, a panic included, the calls made on the tar
writer are entry writes followed by one `Close`: `Close` is called exactly
once and nothing is called after it. -/
theorem log_close_once_last {σ : Type} (client : Client) (w : TarWriter σ) (now : String)
    (order : List (String × Bool)) :
    ∃ writes, (Run client w now order).calls = writes ++ [Call.close] ∧
      (∀ call ∈ writes, call.isClose = false ∧ ∃ name, call.entryName = some name) ∧
      (Run client w now order).calls.countP Call.isClose = 1 := by
  refine ⟨(runBody client w order (w.NewTarWriter ("flynn-backup-" ++ now))).calls,
    Run_calls client w now order, ?_, ?_⟩
  · rcases runBody_paths client w order (w.NewTarWriter ("flynn-backup-" ++ now)) with
      ⟨_, _, hc, _⟩ | ⟨_, _, _, hc, _⟩ | ⟨_, _, _, hc, _⟩ | ⟨_, _, _, _, _, hc, _⟩ |
      ⟨_, _, _, _, _, hc, _⟩ | ⟨_, _, _, _, _, _, _, hc, _⟩ | ⟨_, _, _, _, _, _, hc, _⟩ <;>
    · rw [hc]
      simp [Call.entryName, Call.isClose]
  · rw [Run_calls]
    rcases runBody_paths client w order (w.NewTarWriter ("flynn-backup-" ++ now)) with
      ⟨_, _, hc, _⟩ | ⟨_, _, _, hc, _⟩ | ⟨_, _, _, hc, _⟩ | ⟨_, _, _, _, _, hc, _⟩ |
      ⟨_, _, _, _, _, hc, _⟩ | ⟨_, _, _, _, _, _, _, hc, _⟩ | ⟨_, _, _, _, _, _, hc, _⟩ <;>
    · rw [hc]
      simp [Call.isClose, List.countP_cons]

/-- C4: a run that returns nil issued exactly the entry writes "flynn.json",
"postgres.sql.gz" when the manifest has no "mariadb" key, and "flynn.json",
"postgres.sql.gz", "mysql.sql.gz" when it has one; in every run the entry
writes issued are a prefix of the sequence for the manifest (of both
sequences when `getApps` fails, when nothing is written). When `getApps`
succeeds the first operation applied to the new writer is `WriteJSON` of
"flynn.json" with the manifest `getApps` returned. The calls are the
operations applied to the writer in order: they take it from the new writer to
its final state and carry the errors it returned. -/
theorem Run_entry_writes {σ : Type} (client : Client) (w : TarWriter σ) (now : String)
    (order : List (String × Bool)) :
    ((Run client w now order).outcome = .returned none →
      ∃ data, getApps client order = .ok data ∧
        entryWrites (Run client w now order).calls =
          if (data "mariadb").isSome then ["flynn.json", "postgres.sql.gz", "mysql.sql.gz"]
          else ["flynn.json", "postgres.sql.gz"]) ∧
    (∀ data, getApps client order = .ok data →
      entryWrites (Run client w now order).calls <+:
          if (data "mariadb").isSome then ["flynn.json", "postgres.sql.gz", "mysql.sql.gz"]
          else ["flynn.json", "postgres.sql.gz"]) ∧
    ((∃ e, getApps client order = .error e) → entryWrites (Run client w now order).calls = []) ∧
    entryWrites (Run client w now order).calls <+:
      ["flynn.json", "postgres.sql.gz", "mysql.sql.gz"] ∧
    (∀ data, getApps client order = .ok data →
      ∃ rest, (Run client w now order).calls =
        Call.writeJSON "flynn.json" data
          (w.WriteJSON (w.NewTarWriter ("flynn-backup-" ++ now)) "flynn.json" data).2 :: rest) ∧
    (Run client w now order).final =
      w.replay client (w.NewTarWriter ("flynn-backup-" ++ now))
        (Run client w now order).calls ∧
    w.Faithful client (w.NewTarWriter ("flynn-backup-" ++ now))
      (Run client w now order).calls := by
  obtain ⟨h1, h2, h3, h4⟩ := log_entry_writes client w now order
  obtain ⟨hfinal, hfaith⟩ := Run_log client w now order
  refine ⟨h1, h2, h3, h4, ?_, hfinal, hfaith⟩
  intro data hdata
  have hfirst : ∀ (err : Option String) (rest : List Call),
      (Run client w now order).calls = Call.writeJSON "flynn.json" data err :: rest →
      ∃ rest, (Run client w now order).calls =
        Call.writeJSON "flynn.json" data
          (w.WriteJSON (w.NewTarWriter ("flynn-backup-" ++ now)) "flynn.json" data).2 :: rest := by
    intro err rest hc
    rw [hc] at hfaith
    have herr : (w.WriteJSON (w.NewTarWriter ("flynn-backup-" ++ now)) "flynn.json" data).2 =
        err := hfaith.1 rfl
    exact ⟨rest, by rw [hc, herr]⟩
  rcases runBody_paths client w order (w.NewTarWriter ("flynn-backup-" ++ now)) with
    ⟨e', hg, _⟩ | ⟨d, e, hg, hc, _⟩ | ⟨d, hg, _, hc, _⟩ | ⟨d, p, e, hg, _, hc, _⟩ |
    ⟨d, p, hg, _, _, hc, _⟩ | ⟨d, p, m, e, hg, _, _, hc, _⟩ | ⟨d, p, m, hg, _, _, hc, _⟩
  · rw [hdata] at hg; cases hg
  all_goals
    rw [hdata] at hg
    cases hg
    exact hfirst _ _ (by rw [Run_calls, hc]; rfl)

/-- C9: on every path of `Run`, a panic included, the calls made on the tar
writer are entry writes followed by one `Close`: `Close` is called exactly
once and nothing is called after it. The writer's final state is the one
`Close` returns when applied to the state the entry writes leave, starting
from the new writer. -/
theorem Run_close_once_last {σ : Type} (client : Client) (w : TarWriter σ) (now : String)
    (order : List (String × Bool)) :
    ∃ writes, (Run client w now order).calls = writes ++ [Call.close] ∧
      (∀ call ∈ writes, call.isClose = false ∧ ∃ name, call.entryName = some name) ∧
      (Run client w now order).calls.countP Call.isClose = 1 ∧
      w.Faithful client (w.NewTarWriter ("flynn-backup-" ++ now)) writes ∧
      (Run client w now order).final =
        (w.Close (w.replay client (w.NewTarWriter ("flynn-backup-" ++ now)) writes)).1 := by
  obtain ⟨writes, hc, hw, hcount⟩ := log_close_once_last client w now order
  have hbody : writes = (runBody client w order (w.NewTarWriter ("flynn-backup-" ++ now))).calls := by
    rw [Run_calls] at hc
    exact (List.append_cancel_right hc).symm
  obtain ⟨hfinal, hfaith⟩ := runBody_log client w order (w.NewTarWriter ("flynn-backup-" ++ now))
  refine ⟨writes, hc, hw, hcount, ?_, ?_⟩
  · rw [hbody]
    exact hfaith
  · rw [hbody, Run_final, ← hfinal]

theorem Run_entry_writes_witness :
    (Run okClient (listWriter []) "2016-01-02_030405" apps).outcome = .returned none ∧
    ∃ data, getApps okClient apps = .ok data ∧
      entryWrites (Run okClient (listWriter []) "2016-01-02_030405" apps).calls =
        if (data "mariadb").isSome then ["flynn.json", "postgres.sql.gz", "mysql.sql.gz"]
        else ["flynn.json", "postgres.sql.gz"] :=
  ⟨by decide,
    (Run_entry_writes okClient (listWriter []) "2016-01-02_030405" apps).1 (by decide)⟩

/-- What the recording writer was handed in a full run: the manifest, the two
jobs and `Close`, in that order. -/
theorem recorder_full_run :
    (Run okClient (recorder []) "2016-01-02_030405" apps).final =
      [Call.writeJSON "flynn.json"
          (((((GoMap.empty.set "postgres" (okEntry "postgres")).set "mariadb"
            (okEntry "mariadb")).set "discoverd" (okEntry "discoverd")).set "flannel"
            (okEntry "flannel")).set "controller" (okEntry "controller")) none,
        Call.writeCommandOutput "postgres.sql.gz" "postgres"
          (pgJob (okEntry "postgres").Release) none,
        Call.writeCommandOutput "mysql.sql.gz" "mariadb"
          (mysqlJob (okEntry "mariadb").Release) none,
        Call.close] :=
  rfl

/-- A run over the whole table never dereferences a missing "postgres"
entry. -/
theorem Run_no_panic {σ : Type} (client : Client) (w : TarWriter σ) (now : String)
    {order : List (String × Bool)} (horder : order.Perm apps) :
    (Run client w now order).outcome ≠ .panicked := by
  rw [Run_outcome]
  rcases runBody_paths client w order (w.NewTarWriter ("flynn-backup-" ++ now)) with
    ⟨_, _, _, ho⟩ | ⟨_, _, _, _, ho⟩ | ⟨d, hg, hp, _⟩ | ⟨_, _, _, _, _, _, ho⟩ |
    ⟨_, _, _, _, _, _, ho⟩ | ⟨_, _, _, _, _, _, _, _, ho⟩ | ⟨_, _, _, _, _, _, _, ho⟩
  · rw [ho]; simp
  · rw [ho]; simp
  · obtain ⟨pg, hpg, _⟩ := getApps_required horder hg "postgres" (by decide)
    rw [hpg] at hp
    cases hp
  · rw [ho]; simp
  · rw [ho]; simp
  · rw [ho]; simp
  · rw [ho]; simp

/-- C7: a manifest `getApps` returns with a nil error has a key for each of
postgres, discoverd, flannel and controller, has no key outside the five
names of the table, and holds under each key the app, release and artifact the
client returns for it and the processes of its formation; so `Run` never
dereferences a missing "postgres" entry. -/
theorem getApps_manifest (client : Client) (order : List (String × Bool)) (data : Manifest)
    (horder : order.Perm apps) (h : getApps client order = .ok data) :
    (∀ name ∈ ["postgres", "discoverd", "flannel", "controller"], (data name).isSome) ∧
    (∀ name, (data name).isSome →
      name ∈ ["postgres", "mariadb", "discoverd", "flannel", "controller"]) ∧
    (∀ name ef, data name = some ef →
      ∃ app release formation artifact,
        client.GetApp name = .ok app ∧ client.GetAppRelease app.ID = .ok release ∧
        client.GetFormation app.ID release.ID = .ok formation ∧
        client.GetArtifact release.ArtifactID = .ok artifact ∧
        ef.App = app ∧ ef.Release = release ∧ ef.Artifact = artifact ∧
        ef.Processes = formation.Processes) ∧
    (∃ pg, data "postgres" = some pg) ∧
    (∀ (σ : Type) (w : TarWriter σ) (now : String),
      (Run client w now order).outcome ≠ .panicked) := by
  refine ⟨?_, ?_, ?_, ?_, fun σ w now => Run_no_panic client w now horder⟩
  · intro name hname
    have hreq : (name, true) ∈ apps := by
      simp only [List.mem_cons, List.mem_singleton, List.not_mem_nil, or_false] at hname
      rcases hname with rfl | rfl | rfl | rfl <;> decide
    obtain ⟨ef, hef, _⟩ := getApps_required horder h _ hreq
    simp [hef]
  · intro name hname
    obtain ⟨ef, hef⟩ := Option.isSome_iff_exists.1 hname
    obtain ⟨hmem, _⟩ := getApps_entry h hef
    obtain ⟨p, hp, rfl⟩ := List.mem_map.1 hmem
    have hp' := horder.mem_iff.1 hp
    simp only [apps, List.mem_cons, List.mem_singleton, List.not_mem_nil, or_false] at hp'
    rcases hp' with rfl | rfl | rfl | rfl | rfl <;> decide
  · intro name ef hef
    obtain ⟨_, app, release, formation, artifact, h1, h2, h3, h4, rfl⟩ := getApps_entry h hef
    exact ⟨app, release, formation, artifact, h1, h2, h3, h4, rfl, rfl, rfl, rfl⟩
  · obtain ⟨pg, hpg, _⟩ := getApps_required horder h "postgres" (by decide)
    exact ⟨pg, hpg⟩

/-- C10: for two orders of visiting the table, `getApps` fails under both or
returns the same manifest under both; the error returned does depend on the
order: some client for which `GetApp` fails on two required apps gets
different errors under two orders. -/
theorem getApps_order_independent (client : Client) (o1 o2 : List (String × Bool))
    (h1 : o1.Perm apps) (h2 : o2.Perm apps) :
    ((∃ e1 e2, getApps client o1 = .error e1 ∧ getApps client o2 = .error e2) ∨
      (∃ data, getApps client o1 = .ok data ∧ getApps client o2 = .ok data)) ∧
    (∃ c p1 p2 e1 e2, p1.Perm apps ∧ p2.Perm apps ∧
      (∃ n1 n2 c1 c2, n1 ≠ n2 ∧ (n1, true) ∈ apps ∧ (n2, true) ∈ apps ∧
        c.GetApp n1 = .error c1 ∧ c.GetApp n2 = .error c2) ∧
      getApps c p1 = .error e1 ∧ getApps c p2 = .error e2 ∧ e1 ≠ e2) := by
  have h12 : o1.Perm o2 := h1.trans h2.symm
  refine ⟨?_, missingClient ["flannel", "postgres"], apps, apps.reverse,
    "error getting postgres app details: not found",
    "error getting flannel app details: not found", List.Perm.refl _, List.reverse_perm _,
    ⟨"flannel", "postgres", "not found", "not found", by decide, by decide, by decide, rfl, rfl⟩,
    rfl, rfl, by decide⟩
  cases hg1 : getApps client o1 with
  | error e1 =>
    cases hg2 : getApps client o2 with
    | error e2 => exact Or.inl ⟨e1, e2, rfl, rfl⟩
    | ok d2 =>
      obtain ⟨p, hp, hpe⟩ := getAppsLoop_error hg1
      obtain ⟨o, ho⟩ := (getAppsLoop_ok hg2).1 p (h12.mem_iff.1 hp)
      rw [ho] at hpe
      cases hpe
  | ok d1 =>
    cases hg2 : getApps client o2 with
    | error e2 =>
      obtain ⟨p, hp, hpe⟩ := getAppsLoop_error hg2
      obtain ⟨o, ho⟩ := (getAppsLoop_ok hg1).1 p (h12.mem_iff.2 hp)
      rw [ho] at hpe
      cases hpe
    | ok d2 =>
      right
      refine ⟨d1, rfl, ?_⟩
      rw [(getAppsLoop_ok hg1).2, (getAppsLoop_ok hg2).2]
      congr 1
      exact (merged_congr client (fun k => (h12.map Prod.fst).mem_iff) _).symm

theorem getApps_order_independent_witness :
    (apps.Perm apps ∧ apps.reverse.Perm apps) ∧
    ((∃ e1 e2, getApps okClient apps = .error e1 ∧ getApps okClient apps.reverse = .error e2) ∨
      (∃ data, getApps okClient apps = .ok data ∧ getApps okClient apps.reverse = .ok data)) :=
  ⟨⟨List.Perm.refl _, List.reverse_perm _⟩,
    (getApps_order_independent okClient apps apps.reverse (List.Perm.refl _)
      (List.reverse_perm _)).1⟩

theorem getApps_manifest_witness :
    (apps.reverse.Perm apps ∧
      getApps (missingClient ["mariadb"]) apps.reverse =
        .ok ((((GoMap.empty.set "controller" (okEntry "controller")).set "flannel"
          (okEntry "flannel")).set "discoverd" (okEntry "discoverd")).set "postgres"
          (okEntry "postgres"))) ∧
    (∀ name ∈ ["postgres", "discoverd", "flannel", "controller"],
      (((((GoMap.empty.set "controller" (okEntry "controller")).set "flannel"
          (okEntry "flannel")).set "discoverd" (okEntry "discoverd")).set "postgres"
          (okEntry "postgres")) name).isSome) :=
  ⟨⟨List.reverse_perm _, rfl⟩,
    (getApps_manifest (missingClient ["mariadb"]) apps.reverse _ (List.reverse_perm _) rfl).1⟩

theorem noReleaseClient_mariadb_resolves : RequiredResolve (noReleaseClient "mariadb-id") := by
  intro name h
  simp [apps] at h
  rcases h with rfl | rfl | rfl | rfl <;>
    exact ⟨_, _, _, _, _, rfl, rfl, rfl, rfl, rfl⟩

/-- C3 fails as stated: with every required app resolving and `GetApp`
succeeding for mariadb, a failing `GetAppRelease` for mariadb makes `getApps`
return an error and no manifest. -/
theorem getApps_mariadb_release_counterexample :
    RequiredResolve (noReleaseClient "mariadb-id") ∧
    (noReleaseClient "mariadb-id").GetApp "mariadb" = .ok ⟨"mariadb-id", "mariadb"⟩ ∧
    (noReleaseClient "mariadb-id").GetAppRelease "mariadb-id" = .error "no release" ∧
    getApps (noReleaseClient "mariadb-id") apps =
      .error "error getting mariadb app release: no release" ∧
    ¬ ∃ data, getApps (noReleaseClient "mariadb-id") apps = .ok data ∧ data "mariadb" = none := by
  refine ⟨noReleaseClient_mariadb_resolves, rfl, rfl, rfl, ?_⟩
  rintro ⟨data, hd, _⟩
  have h : getApps (noReleaseClient "mariadb-id") apps =
      .error "error getting mariadb app release: no release" := rfl
  rw [h] at hd
  cases hd

/-- C3, amended: only a failing `GetApp` removes the optional app. When
`GetApp("mariadb")` succeeds and every required app resolves, a failure of
`GetAppRelease`, `GetFormation` or `GetArtifact` for mariadb makes `getApps`
return the error naming mariadb and the failing step, under every order. -/
theorem getApps_mariadb_later_failure (client : Client) (order : List (String × Bool))
    (horder : order.Perm apps) (hreq : RequiredResolve client) (app : App)
    (happ : client.GetApp "mariadb" = .ok app) :
    (∀ cause, client.GetAppRelease app.ID = .error cause →
      getApps client order = .error ("error getting mariadb app release: " ++ cause)) ∧
    (∀ release cause, client.GetAppRelease app.ID = .ok release →
      client.GetFormation app.ID release.ID = .error cause →
      getApps client order = .error ("error getting mariadb app formation: " ++ cause)) ∧
    (∀ release formation cause, client.GetAppRelease app.ID = .ok release →
      client.GetFormation app.ID release.ID = .ok formation →
      client.GetArtifact release.ArtifactID = .error cause →
      getApps client order = .error ("error getting mariadb app artifact: " ++ cause)) := by
  have key : ∀ e, visit client "mariadb" false = .error e → getApps client order = .error e := by
    intro e he
    cases hg : getApps client order with
    | ok d =>
      obtain ⟨o, ho⟩ := (getAppsLoop_ok hg).1 ("mariadb", false) (horder.mem_iff.2 (by decide))
      rw [he] at ho
      cases ho
    | error e' =>
      obtain ⟨p, hp, hpe⟩ := getAppsLoop_error hg
      have hp' := horder.mem_iff.1 hp
      obtain ⟨n, r⟩ := p
      cases r with
      | true =>
        obtain ⟨ef, hef⟩ := hreq n hp'
        rw [visit_some_iff.2 hef] at hpe
        cases hpe
      | false =>
        have hn : n = "mariadb" := by
          simp only [apps, List.mem_cons, Prod.mk.injEq, List.mem_singleton] at hp'
          simpa using hp'
        subst hn
        simp only at hpe
        rw [he] at hpe
        cases hpe
        rfl
  refine ⟨?_, ?_, ?_⟩
  · intro cause hr
    apply key
    simp [visit, happ, hr]
  · intro release cause hr hf
    apply key
    simp [visit, happ, hr, hf]
  · intro release formation cause hr hf ha
    apply key
    simp [visit, happ, hr, hf, ha]

theorem getApps_mariadb_later_failure_witness :
    (apps.reverse.Perm apps ∧ RequiredResolve (noReleaseClient "mariadb-id") ∧
      (noReleaseClient "mariadb-id").GetApp "mariadb" = .ok ⟨"mariadb-id", "mariadb"⟩ ∧
      (noReleaseClient "mariadb-id").GetAppRelease "mariadb-id" = .error "no release") ∧
    getApps (noReleaseClient "mariadb-id") apps.reverse =
      .error ("error getting mariadb app release: " ++ "no release") :=
  ⟨⟨List.reverse_perm _, noReleaseClient_mariadb_resolves, rfl, rfl⟩,
    (getApps_mariadb_later_failure (noReleaseClient "mariadb-id") apps.reverse
      (List.reverse_perm _) noReleaseClient_mariadb_resolves ⟨"mariadb-id", "mariadb"⟩ rfl).1
      "no release" rfl⟩

/-- C6 fails as stated: a failed postgres dump gives the error "error dumping
database: exit status 1", which does not contain "postgres", and a failed
manifest write gives the error of `WriteJSON` itself, unwrapped. -/
theorem Run_error_wrapping_counterexample :
    (Run okClient (listWriter ["postgres.sql.gz"]) "2016-01-02_030405" apps).outcome =
      .returned (some "error dumping database: exit status 1") ∧
    ¬ Contains "error dumping database: exit status 1" "postgres" ∧
    (∀ s data, ((listWriter ["flynn.json"]).WriteJSON s "flynn.json" data).2 =
      some "write failed") ∧
    (Run okClient (listWriter ["flynn.json"]) "2016-01-02_030405" apps).outcome =
      .returned (some "write failed") := by
  refine ⟨by decide, by decide, fun _ _ => rfl, by decide⟩

/-- C6, amended: a non-nil error returned by `Run` is one of three. It is the
error of `getApps`: for an app of the table one of its lookups failed (for
`GetApp`, on a required app), and the message names that app and the failing
step, followed by the cause that lookup returned. Or it is the error the
writer's `WriteJSON` returned for "flynn.json", unchanged. Or it is "error
dumping database: " followed by the cause the writer's `WriteCommandOutput`
returned, the same text for both stores. -/
theorem Run_error_shape {σ : Type} (client : Client) (w : TarWriter σ) (now : String)
    (order : List (String × Bool)) (e : String)
    (h : (Run client w now order).outcome = .returned (some e)) :
    (getApps client order = .error e ∧
      ∃ name required cause, (name, required) ∈ order ∧ Contains e name ∧
        ((required = true ∧ client.GetApp name = .error cause ∧
            e = "error getting " ++ name ++ " app details: " ++ cause) ∨
          (∃ app, client.GetApp name = .ok app ∧
            client.GetAppRelease app.ID = .error cause ∧
            e = "error getting " ++ name ++ " app release: " ++ cause) ∨
          (∃ app release, client.GetApp name = .ok app ∧
            client.GetAppRelease app.ID = .ok release ∧
            client.GetFormation app.ID release.ID = .error cause ∧
            e = "error getting " ++ name ++ " app formation: " ++ cause) ∨
          (∃ app release formation, client.GetApp name = .ok app ∧
            client.GetAppRelease app.ID = .ok release ∧
            client.GetFormation app.ID release.ID = .ok formation ∧
            client.GetArtifact release.ArtifactID = .error cause ∧
            e = "error getting " ++ name ++ " app artifact: " ++ cause))) ∨
    (∃ data, getApps client order = .ok data ∧
      (w.WriteJSON (w.NewTarWriter ("flynn-backup-" ++ now)) "flynn.json" data).2 = some e ∧
      Call.writeJSON "flynn.json" data (some e) ∈ (Run client w now order).calls) ∨
    (∃ name app job cause pre post,
      (Run client w now order).calls =
        pre ++ Call.writeCommandOutput name app job (some cause) :: post ∧
      (w.WriteCommandOutput (w.replay client (w.NewTarWriter ("flynn-backup-" ++ now)) pre)
        client name app job).2 = some cause ∧
      (name = "postgres.sql.gz" ∨ name = "mysql.sql.gz") ∧
      e = "error dumping database: " ++ cause) := by
  have hc3 : ∀ (a name b cause : String), Contains (a ++ name ++ b ++ cause) name := by
    intro a name b cause
    rw [String.append_assoc (a ++ name)]
    exact contains_mid a name (b ++ cause)
  obtain ⟨_, hfaith⟩ := Run_log client w now order
  revert h
  rw [Run_outcome]
  rcases runBody_paths client w order (w.NewTarWriter ("flynn-backup-" ++ now)) with
    ⟨e', hg, hc, ho⟩ | ⟨d, e', hg, hc, ho⟩ | ⟨d, hg, hp, hc, ho⟩ | ⟨d, p, e', hg, hp, hc, ho⟩ |
    ⟨d, p, hg, hp, hm, hc, ho⟩ | ⟨d, p, m, e', hg, hp, hm, hc, ho⟩ |
    ⟨d, p, m, hg, hp, hm, hc, ho⟩
  · rw [ho]
    intro h
    simp only [Outcome.returned.injEq, Option.some.injEq] at h
    subst h
    left
    refine ⟨hg, ?_⟩
    obtain ⟨⟨n, r⟩, hp, hpe⟩ := getAppsLoop_error hg
    rcases visit_error hpe with ⟨hr, cause, hA, he⟩ | ⟨app, cause, hA, hR, he⟩ |
      ⟨app, rel, cause, hA, hR, hF, he⟩ | ⟨app, rel, f, cause, hA, hR, hF, hT, he⟩
    · exact ⟨n, r, cause, hp, he ▸ hc3 _ _ _ _, Or.inl ⟨hr, hA, he⟩⟩
    · exact ⟨n, r, cause, hp, he ▸ hc3 _ _ _ _, Or.inr (Or.inl ⟨app, hA, hR, he⟩)⟩
    · exact ⟨n, r, cause, hp, he ▸ hc3 _ _ _ _, Or.inr (Or.inr (Or.inl ⟨app, rel, hA, hR, hF, he⟩))⟩
    · exact ⟨n, r, cause, hp, he ▸ hc3 _ _ _ _,
        Or.inr (Or.inr (Or.inr ⟨app, rel, f, hA, hR, hF, hT, he⟩))⟩
  · rw [ho]
    intro h
    simp only [Outcome.returned.injEq, Option.some.injEq] at h
    subst h
    have hmem : Call.writeJSON "flynn.json" d (some e') ∈ (Run client w now order).calls := by
      rw [Run_calls, hc]
      exact List.mem_cons_self _ _
    refine Or.inr (Or.inl ⟨d, hg, ?_, hmem⟩)
    rw [Run_calls, hc] at hfaith
    exact hfaith.1 rfl
  · rw [ho]; simp
  · rw [ho]
    intro h
    simp only [Outcome.returned.injEq, Option.some.injEq] at h
    have hmem : Call.writeCommandOutput "postgres.sql.gz" "postgres" (pgJob p.Release) (some e') ∈
        (Run client w now order).calls := by
      rw [Run_calls, hc]
      exact List.mem_cons_of_mem _ (List.mem_cons_self _ _)
    obtain ⟨pre, post, hcalls, hissue⟩ := log_mem_issued hfaith hmem
    exact Or.inr (Or.inr ⟨_, _, _, e', pre, post, hcalls, hissue rfl, Or.inl rfl, h.symm⟩)
  · rw [ho]; simp
  · rw [ho]
    intro h
    simp only [Outcome.returned.injEq, Option.some.injEq] at h
    have hmem : Call.writeCommandOutput "mysql.sql.gz" "mariadb" (mysqlJob m.Release) (some e') ∈
        (Run client w now order).calls := by
      rw [Run_calls, hc]
      exact List.mem_cons_of_mem _ (List.mem_cons_of_mem _ (List.mem_cons_self _ _))
    obtain ⟨pre, post, hcalls, hissue⟩ := log_mem_issued hfaith hmem
    exact Or.inr (Or.inr ⟨_, _, _, e', pre, post, hcalls, hissue rfl, Or.inr rfl, h.symm⟩)
  · rw [ho]; simp

theorem Run_error_shape_witness :
    (Run (missingClient ["flannel"]) (listWriter []) "2016-01-02_030405" apps).outcome =
      .returned (some "error getting flannel app details: not found") ∧
    ((getApps (missingClient ["flannel"]) apps = .error "error getting flannel app details: not found" ∧
      ∃ name required cause, (name, required) ∈ apps ∧ Contains "error getting flannel app details: not found" name ∧
        ((required = true ∧ (missingClient ["flannel"]).GetApp name = .error cause ∧
            "error getting flannel app details: not found" = "error getting " ++ name ++ " app details: " ++ cause) ∨
          (∃ app, (missingClient ["flannel"]).GetApp name = .ok app ∧
            (missingClient ["flannel"]).GetAppRelease app.ID = .error cause ∧
            "error getting flannel app details: not found" = "error getting " ++ name ++ " app release: " ++ cause) ∨
          (∃ app release, (missingClient ["flannel"]).GetApp name = .ok app ∧
            (missingClient ["flannel"]).GetAppRelease app.ID = .ok release ∧
            (missingClient ["flannel"]).GetFormation app.ID release.ID = .error cause ∧
            "error getting flannel app details: not found" = "error getting " ++ name ++ " app formation: " ++ cause) ∨
          (∃ app release formation, (missingClient ["flannel"]).GetApp name = .ok app ∧
            (missingClient ["flannel"]).GetAppRelease app.ID = .ok release ∧
            (missingClient ["flannel"]).GetFormation app.ID release.ID = .ok formation ∧
            (missingClient ["flannel"]).GetArtifact release.ArtifactID = .error cause ∧
            "error getting flannel app details: not found" = "error getting " ++ name ++ " app artifact: " ++ cause))) ∨
    (∃ data, getApps (missingClient ["flannel"]) apps = .ok data ∧
      ((listWriter []).WriteJSON ((listWriter []).NewTarWriter ("flynn-backup-" ++ "2016-01-02_030405")) "flynn.json" data).2 = some "error getting flannel app details: not found" ∧
      Call.writeJSON "flynn.json" data (some "error getting flannel app details: not found") ∈ (Run (missingClient ["flannel"]) (listWriter []) "2016-01-02_030405" apps).calls) ∨
    (∃ name app job cause pre post,
      (Run (missingClient ["flannel"]) (listWriter []) "2016-01-02_030405" apps).calls =
        pre ++ Call.writeCommandOutput name app job (some cause) :: post ∧
      ((listWriter []).WriteCommandOutput ((listWriter []).replay (missingClient ["flannel"]) ((listWriter []).NewTarWriter ("flynn-backup-" ++ "2016-01-02_030405")) pre)
        (missingClient ["flannel"]) name app job).2 = some cause ∧
      (name = "postgres.sql.gz" ∨ name = "mysql.sql.gz") ∧
      "error getting flannel app details: not found" = "error dumping database: " ++ cause)) :=
  ⟨by decide,
    Run_error_shape (missingClient ["flannel"]) (listWriter []) "2016-01-02_030405" apps
      "error getting flannel app details: not found" (by decide)⟩

end Backup
